import Mathlib

/-!
Shallow embedding of the manifest cache module of david-www: the module
built on events, moment, config, dep-diff, batch and request which exports
getManifest and setCacheDuration.

Modelling conventions.  Timestamps are Nat (milliseconds); JS null and
undefined are Option.none; a dependency section (a JSON object mapping
package names to version ranges) is an association list; the nested JS
object manifests is a flat association list keyed by the triple of the
three JS property keys.  JSON.parse is an external platform primitive and
is passed in as a parameter parse; the dep-diff library is external and is
passed in as a parameter dd.  The serialize/deserialize deep copy
JSON.parse applied to JSON.stringify of x is modelled as the same value
tagged isDeepCopy true, while handing a callback the stored object itself
is tagged isDeepCopy false (the delivered reference is then the very
object held by the cache entry).
-/

namespace DavidManifest

/-- Dependency section of a manifest: package name to version-range string. -/
abbrev Deps := List (String × String)

/-- Parsed package.json content: name, version, the four dependency
sections (none models a key that is absent from the JSON object, hence a
JS undefined on access), and the ref field assigned by getManifest before
caching (source line 113). -/
structure ManifestData where
  name : String
  version : String
  dependencies : Option Deps
  devDependencies : Option Deps
  peerDependencies : Option Deps
  optionalDependencies : Option Deps
  ref : Option String
deriving DecidableEq

/-- Source lines 20-26: function Manifest (data, priv) stores the data, the
private flag, and expires, namely construction time plus Manifest.TTL. -/
structure Manifest where
  data : ManifestData
  priv : Bool
  expires : Nat
deriving DecidableEq

/-- Source line 49: ref = ref or-else null.  The empty string is the only
falsy JS string, so it is coerced to null exactly like absent. -/
def refOrNull (ref : Option String) : Option String :=
  match ref with
  | some r => if r == "" then none else some r
  | none => none

/-- JS property key used for the innermost level of manifests at source
lines 50 and 116-118: object indexing converts null to the string key
"null". -/
def refPropKey (ref : Option String) : String :=
  match ref with
  | none => "null"
  | some r => r

/-- Cache key: the three JS property keys of manifests at user, repo, ref. -/
abbrev CacheKey := String × String × String

/-- In-memory manifest store, source line 28: var manifests.  The nested
object is flattened to one association list keyed by the key triple. -/
abbrev Cache := List (CacheKey × Manifest)

/-- Key triple used to index the manifests object. -/
def cacheKey (user repo : String) (ref : Option String) : CacheKey :=
  (user, repo, refPropKey ref)

/-- Source line 50: manifests at user and-then repo and-then ref, null when
any level is missing. -/
def cacheLookup (c : Cache) (user repo : String) (ref : Option String) : Option Manifest :=
  c.lookup (cacheKey user repo ref)

/-- Source lines 116-118: write the new manifest at the key triple,
overwriting any previous entry. -/
def cacheStore (c : Cache) (user repo : String) (ref : Option String) (m : Manifest) : Cache :=
  (cacheKey user repo ref, m) :: c.filter (fun p => !(p.1 == cacheKey user repo ref))

/-- Source line 57: the coalescing key, the array of user, repo and
authToken joined with "-".  Array.join renders null as the empty string. -/
def batchKey (user repo : String) (authToken : Option String) : String :=
  user ++ "-" ++ repo ++ "-" ++ (match authToken with | none => "" | some t => t)

/-- Contract of the external dep-diff library: an ordered list of entries
with a name and optional old and new ranges. -/
structure DiffEntry where
  name : String
  oldRange : Option String
  newRange : Option String
deriving DecidableEq

/-- Type of the external dep-diff function. -/
abbrev DiffFun := Option Deps → Option Deps → List DiffEntry

/-- Events emitted on the module's EventEmitter, source lines 1-8 and
126-158. -/
inductive Event where
  | retrieve (manifest : ManifestData) (user repo : String) (priv : Bool)
  | dependenciesChange (diffs : List DiffEntry) (manifest : ManifestData) (user repo : String) (priv : Bool)
  | devDependenciesChange (diffs : List DiffEntry) (manifest : ManifestData) (user repo : String) (priv : Bool)
  | peerDependenciesChange (diffs : List DiffEntry) (manifest : ManifestData) (user repo : String) (priv : Bool)
  | optionalDependenciesChange (diffs : List DiffEntry) (manifest : ManifestData) (user repo : String) (priv : Bool)
deriving DecidableEq

/-- Visibility flag carried by an event. -/
def eventPriv : Event → Bool
  | .retrieve _ _ _ p => p
  | .dependenciesChange _ _ _ _ p => p
  | .devDependenciesChange _ _ _ _ p => p
  | .peerDependenciesChange _ _ _ _ p => p
  | .optionalDependenciesChange _ _ _ _ p => p

/-- Argument pair a caller's callback is invoked with.  fetchErr passes the
transport error through (line 81); parseErr is the Error built at line 97,
whose message embeds the offending body; visibilityErr is the error passed
through at line 108; okv carries manifest data, with isDeepCopy true when
the source delivers a JSON round-trip copy (lines 54 and 87) and false when
it delivers the stored object itself (line 123). -/
inductive CbArg where
  | fetchErr (e : String)
  | parseErr (body : String)
  | visibilityErr (e : String)
  | okv (data : ManifestData) (isDeepCopy : Bool)
deriving DecidableEq

/-- True unless the delivery aliases the cache entry's stored object. -/
def isDeepCopyDelivery : CbArg → Bool
  | .okv _ c => c
  | _ => true

/-- True exactly for a visibility-lookup error delivery. -/
def isVisibilityErr : CbArg → Bool
  | .visibilityErr _ => true
  | _ => false

/-- Pending callback queues of the batch module, keyed by batch key.
Callbacks are identified by caller ids (Nat). -/
abbrev Groups := List (String × List Nat)

/-- Modelled from the spec: batch.push(key, cb) of the batch module, whose
source is not under src/.  It enqueues a callback under the key, creating
the group if absent. -/
def groupPush (gs : Groups) (k : String) (c : Nat) : Groups :=
  match gs with
  | [] => [(k, [c])]
  | (k', cs) :: rest =>
    if k' == k then (k', cs ++ [c]) :: rest else (k', cs) :: groupPush rest k c

/-- Callbacks currently enqueued under a key, in enqueue order. -/
def groupCallbacks (gs : Groups) (k : String) : List Nat :=
  (gs.lookup k).getD []

/-- Modelled from the spec: batch.exists(key) of the batch module, whose
source is not under src/. -/
def groupExists (gs : Groups) (k : String) : Bool :=
  (gs.lookup k).isSome

/-- One outstanding upstream request: the coalescing key it was issued
under and the leader call's closure state, namely user, repo, the coerced
ref and the call-time cache snapshot (the local variable manifest of
source line 50). -/
structure InFlight where
  key : String
  user : String
  repo : String
  ref : Option String
  snapshot : Option Manifest
deriving DecidableEq

/-- Whole-module state: the manifests cache, the batch groups, the
outstanding fetches, a count of upstream fetches issued, the log of
callback invocations, the log of emitted events, and Manifest.TTL. -/
structure SysState where
  cache : Cache
  groups : Groups
  inflight : List InFlight
  fetchCount : Nat
  delivered : List (Nat × CbArg)
  events : List Event
  ttl : Nat
deriving DecidableEq

/-- Modelled from the spec: batch.call(key, invoker) of the batch module,
whose source is not under src/.  It removes the group and invokes every
enqueued callback, in enqueue order, with the one result. -/
def deliverAll (s : SysState) (key : String) (arg : CbArg) : SysState :=
  { s with
    delivered := s.delivered ++ (groupCallbacks s.groups key).map (fun c => (c, arg)),
    groups := s.groups.eraseP (fun p => p.1 == key) }

/-- Source line 52 guard on a present entry: not private and expires
strictly after the current time. -/
def cacheHitGuardM (m : Manifest) (now : Nat) : Bool :=
  !m.priv && decide (now < m.expires)

/-- Source lines 57-76: compute the batch key; if a fetch for it is in
flight only enqueue (line 60), otherwise enqueue, become the leader and
issue the upstream request (lines 63-78).  The snapshot travels with the
in-flight record because the response handler closes over the manifest
variable. -/
def fetchOrCoalesce (s : SysState) (cid : Nat) (user repo : String)
    (ref authToken : Option String) (snapshot : Option Manifest) : SysState :=
  let key := batchKey user repo authToken
  if groupExists s.groups key then
    { s with groups := groupPush s.groups key cid }
  else
    { s with
      groups := groupPush s.groups key cid,
      inflight := s.inflight ++ [{ key := key, user := user, repo := repo, ref := ref, snapshot := snapshot }],
      fetchCount := s.fetchCount + 1 }

/-- Source lines 47-76: the synchronous part of exports.getManifest.  The
caller is identified by cid and the current clock value by now. -/
def getManifestCall (s : SysState) (cid : Nat) (user repo : String)
    (ref0 authToken : Option String) (now : Nat) : SysState :=
  let ref := refOrNull ref0
  let manifest := cacheLookup s.cache user repo ref
  match manifest with
  | some m =>
    if cacheHitGuardM m now then
      { s with delivered := s.delivered ++ [(cid, CbArg.okv m.data true)] }
    else
      fetchOrCoalesce s cid user repo ref authToken manifest
  | none => fetchOrCoalesce s cid user repo ref authToken manifest

/-- Source lines 130-133: oldX is oldManifest's section when oldManifest is
present, else an empty object.  The else arm is dead in the source because
these lines run only under the else of the oldManifest test at line 126. -/
def oldSection (oldManifest : Option Manifest) (sel : ManifestData → Option Deps) : Option Deps :=
  match oldManifest with
  | some m => sel m.data
  | none => some []

/-- Argument pairs handed to depDiff at source lines 135, 141, 147 and 153,
in order: dependencies, devDependencies, peerDependencies,
optionalDependencies. -/
def differArgs (oldManifest : Option Manifest) (data : ManifestData) : List (Option Deps × Option Deps) :=
  [(oldSection oldManifest (fun d => d.dependencies), data.dependencies),
   (oldSection oldManifest (fun d => d.devDependencies), data.devDependencies),
   (oldSection oldManifest (fun d => d.peerDependencies), data.peerDependencies),
   (oldSection oldManifest (fun d => d.optionalDependencies), data.optionalDependencies)]

/-- Source lines 126-158: a retrieve event when there was no call-time
entry, otherwise one change event per dependency section whose diff list is
non-empty. -/
def notifyEvents (dd : DiffFun) (oldManifest : Option Manifest) (data : ManifestData)
    (user repo : String) (priv : Bool) : List Event :=
  match oldManifest with
  | none => [Event.retrieve data user repo priv]
  | some _ =>
    let oldDependencies := oldSection oldManifest (fun d => d.dependencies)
    let oldDevDependencies := oldSection oldManifest (fun d => d.devDependencies)
    let oldPeerDependencies := oldSection oldManifest (fun d => d.peerDependencies)
    let oldOptionalDependencies := oldSection oldManifest (fun d => d.optionalDependencies)
    (if (dd oldDependencies data.dependencies).isEmpty then []
     else [Event.dependenciesChange (dd oldDependencies data.dependencies) data user repo priv])
    ++ (if (dd oldDevDependencies data.devDependencies).isEmpty then []
     else [Event.devDependenciesChange (dd oldDevDependencies data.devDependencies) data user repo priv])
    ++ (if (dd oldPeerDependencies data.peerDependencies).isEmpty then []
     else [Event.peerDependenciesChange (dd oldPeerDependencies data.peerDependencies) data user repo priv])
    ++ (if (dd oldOptionalDependencies data.optionalDependencies).isEmpty then []
     else [Event.optionalDependenciesChange (dd oldOptionalDependencies data.optionalDependencies) data user repo priv])

/-- Result of the repository-visibility lookup: an error or a repoData
object whose private field is a Bool. -/
inductive RepoResult where
  | err (e : String)
  | ok (priv : Bool)
deriving DecidableEq

/-- Source lines 105-159: function onGetRepo.  On error, deliver it to the
group (line 108).  On success: set data.ref, build the new Manifest with
expiry now plus TTL, store it, deliver the stored object itself to every
waiter (line 123, no copy), then emit the notification events. -/
def onGetRepo (dd : DiffFun) (s1 : SysState) (key : String) (fl : InFlight)
    (data0 : ManifestData) (now : Nat) : RepoResult → SysState
  | .err e => deliverAll s1 key (.visibilityErr e)
  | .ok priv =>
    let oldManifest := fl.snapshot
    let data : ManifestData := { data0 with ref := fl.ref }
    let manifest : Manifest := { data := data, priv := priv, expires := now + s1.ttl }
    let s2 : SysState := { s1 with cache := cacheStore s1.cache fl.user fl.repo fl.ref manifest }
    let s3 := deliverAll s2 key (.okv manifest.data false)
    { s3 with events := s3.events ++ notifyEvents dd oldManifest manifest.data fl.user fl.repo priv }

/-- Source lines 91-103: parse the body; on failure deliver the parse error
carrying the body (lines 94-98), otherwise invoke onGetRepo with the
constant arguments null and a repoData whose private field is false
(line 103). -/
def parseAndGo (parse : String → Option ManifestData) (dd : DiffFun) (s1 : SysState)
    (key : String) (fl : InFlight) (body : String) (now : Nat) : SysState :=
  match parse body with
  | none => deliverAll s1 key (.parseErr body)
  | some data0 => onGetRepo dd s1 key fl data0 now (.ok false)

/-- Outcome of the upstream request: a transport error or a body string. -/
inductive FetchResult where
  | err (e : String)
  | ok (body : String)
deriving DecidableEq

/-- Source lines 78-160: the response handler of the leader's request for
the given batch key, run at clock value now.  The outstanding fetch is
retired; on transport error the error goes to the whole group (lines
79-82); if the call-time snapshot is still unexpired the handler delivers a
JSON round-trip copy of that snapshot's data and discards the body (lines
84-89); otherwise the body is parsed and processed. -/
def fetchComplete (parse : String → Option ManifestData) (dd : DiffFun) (s : SysState)
    (key : String) (result : FetchResult) (now : Nat) : SysState :=
  match s.inflight.find? (fun f => f.key == key) with
  | none => s
  | some fl =>
    let s1 : SysState := { s with inflight := s.inflight.eraseP (fun f => f.key == key) }
    match result with
    | .err e => deliverAll s1 key (.fetchErr e)
    | .ok body =>
      match fl.snapshot with
      | some m =>
        if decide (now < m.expires) then deliverAll s1 key (.okv m.data true)
        else parseAndGo parse dd s1 key fl body now
      | none => parseAndGo parse dd s1 key fl body now

/-- Externally visible happenings the embedding is driven by: a call to
getManifest, or the completion of the upstream request for a batch key. -/
inductive Action where
  | call (cid : Nat) (user repo : String) (ref0 authToken : Option String) (now : Nat)
  | complete (key : String) (result : FetchResult) (now : Nat)
deriving DecidableEq

/-- One step of the module's event loop. -/
def step (parse : String → Option ManifestData) (dd : DiffFun) (s : SysState) : Action → SysState
  | .call cid user repo ref0 authToken now => getManifestCall s cid user repo ref0 authToken now
  | .complete key result now => fetchComplete parse dd s key result now

/-- Run a sequence of actions from a state. -/
def run (parse : String → Option ManifestData) (dd : DiffFun) (s : SysState)
    (acts : List Action) : SysState :=
  acts.foldl (step parse dd) s

/-- Module load state: empty manifests object, no groups, no outstanding
request, and the default Manifest.TTL of one hour in milliseconds
(source lines 26 and 28). -/
def initState : SysState :=
  { cache := [], groups := [], inflight := [], fetchCount := 0,
    delivered := [], events := [], ttl := 3600000 }

/-- Source lines 168-170: exports.setCacheDuration replaces Manifest.TTL,
affecting entries created afterwards. -/
def setCacheDuration (s : SysState) (duration : Nat) : SysState :=
  { s with ttl := duration }

/-- Enqueue a whole list of callbacks under one key, first to last. -/
def pushAll (gs : Groups) (k : String) (cs : List Nat) : Groups :=
  cs.foldl (fun g c => groupPush g k c) gs

/-- The call actions of a batch of concurrent callers sharing all
arguments. -/
def callsOf (cids : List Nat) (user repo : String) (ref0 authToken : Option String)
    (now : Nat) : List Action :=
  cids.map (fun c => Action.call c user repo ref0 authToken now)

/-- Coalescer soundness invariant: at most one outstanding fetch per batch
key, and every outstanding fetch has a (unique) live group. -/
def GoodState (s : SysState) : Prop :=
  (s.inflight.map (fun f => f.key)).Nodup ∧
  ∀ f ∈ s.inflight, groupExists s.groups f.key = true

instance : DecidablePred GoodState := fun s => by
  unfold GoodState
  infer_instance

/-- Sample dependency section used by concrete scenarios. -/
def sampleDeps : Deps := [("a", "^1.0.0")]

/-- Sample parsed manifest used by concrete scenarios. -/
def sampleData : ManifestData :=
  { name := "n", version := "1.0.0", dependencies := some sampleDeps,
    devDependencies := none, peerDependencies := none,
    optionalDependencies := none, ref := none }

/-- Concrete stand-in for JSON.parse: one recognised body. -/
def parse0 : String → Option ManifestData :=
  fun s => if s == "BODY" then some sampleData else none

/-- Concrete stand-in for dep-diff reporting no differences. -/
def dd0 : DiffFun := fun _ _ => []

/-- Fresh public cache entry used by concrete scenarios. -/
def mHit : Manifest := { data := sampleData, priv := false, expires := 10 }

/-- State holding one fresh public entry for user u, repo r, default ref. -/
def sHit : SysState := { initState with cache := [(cacheKey "u" "r" none, mHit)] }

/-- Fresh private cache entry used by concrete scenarios. -/
def mPriv : Manifest := { data := sampleData, priv := true, expires := 100 }

/-- Leader closure whose call-time snapshot is the fresh private entry. -/
def flRace : InFlight := { key := "k", user := "u", repo := "r", ref := none, snapshot := some mPriv }

/-- State with one waiter enqueued and the private-snapshot fetch in flight. -/
def sRace : SysState := { initState with groups := [("k", [3])], inflight := [flRace] }

/-- Leader closure whose call-time snapshot was empty. -/
def flFan : InFlight := { key := "k", user := "u", repo := "r", ref := none, snapshot := none }

/-- State with one waiter enqueued and the empty-snapshot fetch in flight. -/
def sFan : SysState := { initState with groups := [("k", [4])], inflight := [flFan] }

/-- Scenario: one call on a cold cache, then its fetch completes. -/
def c3acts : List Action :=
  [Action.call 0 "u" "r" none none 0,
   Action.complete (batchKey "u" "r" none) (.ok "BODY") 5]

/-- Scenario: populate the default-ref slot, then call with the literal ref
string "null". -/
def c7acts : List Action :=
  [Action.call 0 "u" "r" none none 0,
   Action.complete (batchKey "u" "r" none) (.ok "BODY") 5,
   Action.call 1 "u" "r" (some "null") none 6]

/-- Scenario: two calls for distinct repositories whose batch keys collide,
then the single fetch completes. -/
def c10acts : List Action :=
  [Action.call 0 "a" "b-c" none none 0,
   Action.call 1 "a-b" "c" none none 0,
   Action.complete (batchKey "a" "b-c" none) (.ok "BODY") 5]

/-- Enqueuing or becoming leader never invokes a callback synchronously. -/
theorem fetchOrCoalesce_delivered (s : SysState) (cid : Nat) (user repo : String)
    (ref authToken : Option String) (snapshot : Option Manifest) :
    (fetchOrCoalesce s cid user repo ref authToken snapshot).delivered = s.delivered := by
  unfold fetchOrCoalesce
  dsimp only
  split <;> rfl

/-- C1: the synchronous cache path of getManifest is taken if and only if
an entry exists under the key (user, repo, ref-or-default), its private
flag is false and the current time is before its expiry; in that case the
callback is invoked with the data and no upstream fetch is issued or
enqueued, and in every other case (no entry, private entry, or expired
entry) the call proceeds to the fetch/coalesce path. -/
theorem spec_c1_cache_hit_iff (s : SysState) (cid : Nat) (user repo : String)
    (ref0 authToken : Option String) (now : Nat) :
    ((∃ m, cacheLookup s.cache user repo (refOrNull ref0) = some m ∧
        m.priv = false ∧ now < m.expires) →
      ∃ m, cacheLookup s.cache user repo (refOrNull ref0) = some m ∧
        getManifestCall s cid user repo ref0 authToken now =
          { s with delivered := s.delivered ++ [(cid, CbArg.okv m.data true)] } ∧
        (getManifestCall s cid user repo ref0 authToken now).fetchCount = s.fetchCount ∧
        (getManifestCall s cid user repo ref0 authToken now).groups = s.groups)
    ∧ ((∀ m, cacheLookup s.cache user repo (refOrNull ref0) = some m →
          m.priv = true ∨ m.expires ≤ now) →
      getManifestCall s cid user repo ref0 authToken now =
        fetchOrCoalesce s cid user repo (refOrNull ref0) authToken
          (cacheLookup s.cache user repo (refOrNull ref0)) ∧
      (getManifestCall s cid user repo ref0 authToken now).delivered = s.delivered) := by
  constructor
  · rintro ⟨m, hm, hp, he⟩
    refine ⟨m, hm, ?_⟩
    simp [getManifestCall, hm, cacheHitGuardM, hp, he]
  · intro hmiss
    cases h : cacheLookup s.cache user repo (refOrNull ref0) with
    | none =>
      constructor
      · simp [getManifestCall, h]
      · simp only [getManifestCall, h]
        exact fetchOrCoalesce_delivered ..
    | some m =>
      have hg : cacheHitGuardM m now = false := by
        rcases hmiss m h with hp | he
        · simp [cacheHitGuardM, hp]
        · simp [cacheHitGuardM, Nat.not_lt.2 he]
      constructor
      · simp [getManifestCall, h, hg]
      · simp only [getManifestCall, h, hg, Bool.false_eq_true, if_false]
        exact fetchOrCoalesce_delivered ..

/-- Witness for C1 at a concrete fresh public entry. -/
theorem spec_c1_witness :
    ∃ m, cacheLookup sHit.cache "u" "r" (refOrNull none) = some m ∧
      getManifestCall sHit 0 "u" "r" none none 5 =
        { sHit with delivered := sHit.delivered ++ [(0, CbArg.okv m.data true)] } ∧
      (getManifestCall sHit 0 "u" "r" none none 5).fetchCount = sHit.fetchCount ∧
      (getManifestCall sHit 0 "u" "r" none none 5).groups = sHit.groups :=
  (spec_c1_cache_hit_iff sHit 0 "u" "r" none none 5).1 ⟨mHit, by decide, by decide, by decide⟩

/-- C3 counterexample: on a cold cache, the fresh-fetch fan-out hands the
waiter the stored manifest object itself (source line 123 passes
manifest.data with no JSON round trip), so not every delivery is an
independent deep copy; the delivered value is exactly the data of the
entry the cache now holds. -/
theorem spec_c3_counterexample :
    ¬ (∀ p ∈ (run parse0 dd0 initState c3acts).delivered, isDeepCopyDelivery p.2 = true) ∧
    (run parse0 dd0 initState c3acts).delivered = [(0, CbArg.okv sampleData false)] ∧
    cacheLookup (run parse0 dd0 initState c3acts).cache "u" "r" none =
      some { data := sampleData, priv := false, expires := 3600005 } := by decide

/-- C3 amended: the synchronous cache-hit path and the private-race path
deliver JSON round-trip deep copies, but the fresh-fetch fan-out passes the
stored manifest object itself — value-equal to, and aliased with, the data
of the cache entry just written. -/
theorem spec_c3_amended :
    (∀ (s : SysState) (cid : Nat) (user repo : String) (ref0 authToken : Option String)
        (now : Nat) (m : Manifest),
      cacheLookup s.cache user repo (refOrNull ref0) = some m →
      cacheHitGuardM m now = true →
      (getManifestCall s cid user repo ref0 authToken now).delivered =
        s.delivered ++ [(cid, CbArg.okv m.data true)]) ∧
    (∀ (parse : String → Option ManifestData) (dd : DiffFun) (s : SysState) (key : String)
        (fl : InFlight) (m : Manifest) (body : String) (now : Nat),
      s.inflight.find? (fun f => f.key == key) = some fl →
      fl.snapshot = some m →
      now < m.expires →
      (fetchComplete parse dd s key (.ok body) now).delivered =
        s.delivered ++ (groupCallbacks s.groups key).map (fun c => (c, CbArg.okv m.data true))) ∧
    (∀ (parse : String → Option ManifestData) (dd : DiffFun) (s : SysState) (key : String)
        (fl : InFlight) (data0 : ManifestData) (body : String) (now : Nat),
      s.inflight.find? (fun f => f.key == key) = some fl →
      (∀ m, fl.snapshot = some m → m.expires ≤ now) →
      parse body = some data0 →
      (fetchComplete parse dd s key (.ok body) now).delivered =
        s.delivered ++ (groupCallbacks s.groups key).map
          (fun c => (c, CbArg.okv { data0 with ref := fl.ref } false)) ∧
      cacheLookup (fetchComplete parse dd s key (.ok body) now).cache fl.user fl.repo fl.ref =
        some { data := { data0 with ref := fl.ref }, priv := false, expires := now + s.ttl }) := by
  refine ⟨?_, ?_, ?_⟩
  · intro s cid user repo ref0 authToken now m hm hg
    simp [getManifestCall, hm, hg]
  · intro parse dd s key fl m body now hfind hsnap hfresh
    simp [fetchComplete, hfind, hsnap, hfresh, deliverAll]
  · intro parse dd s key fl data0 body now hfind hstale hparse
    have hbody : parseAndGo parse dd
        { s with inflight := s.inflight.eraseP (fun f => f.key == key) } key fl body now =
        onGetRepo dd { s with inflight := s.inflight.eraseP (fun f => f.key == key) }
          key fl data0 now (.ok false) := by
      simp [parseAndGo, hparse]
    constructor
    · cases h : fl.snapshot with
      | none =>
        simp [fetchComplete, hfind, h, hbody, onGetRepo, deliverAll]
      | some m =>
        have : ¬ now < m.expires := Nat.not_lt.2 (hstale m h)
        simp [fetchComplete, hfind, h, this, hbody, onGetRepo, deliverAll]
    · cases h : fl.snapshot with
      | none =>
        simp [fetchComplete, hfind, h, hbody, onGetRepo, deliverAll, cacheStore, cacheLookup,
          List.lookup]
      | some m =>
        have : ¬ now < m.expires := Nat.not_lt.2 (hstale m h)
        simp [fetchComplete, hfind, h, this, hbody, onGetRepo, deliverAll, cacheStore,
          cacheLookup, List.lookup]

/-- Witness for C3 amended: the three paths at concrete states. -/
theorem spec_c3_amended_witness :
    (getManifestCall sHit 0 "u" "r" none none 5).delivered =
      sHit.delivered ++ [(0, CbArg.okv mHit.data true)] ∧
    (fetchComplete parse0 dd0 sRace "k" (.ok "BODY") 5).delivered =
      sRace.delivered ++ (groupCallbacks sRace.groups "k").map
        (fun c => (c, CbArg.okv mPriv.data true)) ∧
    ((fetchComplete parse0 dd0 sFan "k" (.ok "BODY") 5).delivered =
      sFan.delivered ++ (groupCallbacks sFan.groups "k").map
        (fun c => (c, CbArg.okv { sampleData with ref := flFan.ref } false)) ∧
    cacheLookup (fetchComplete parse0 dd0 sFan "k" (.ok "BODY") 5).cache
        flFan.user flFan.repo flFan.ref =
      some { data := { sampleData with ref := flFan.ref }, priv := false,
             expires := 5 + sFan.ttl }) :=
  ⟨spec_c3_amended.1 sHit 0 "u" "r" none none 5 mHit (by decide) (by decide),
   spec_c3_amended.2.1 parse0 dd0 sRace "k" flRace mPriv "BODY" 5 (by decide) (by decide)
     (by decide),
   spec_c3_amended.2.2 parse0 dd0 sFan "k" flFan sampleData "BODY" 5 (by decide)
     (by intro m hm; cases hm) (by decide)⟩

/-- C7 counterexample: the literal ref string "null" addresses the very
cache slot that an absent-ref call populates — after a default-ref fetch is
cached, a call with ref "null" is served synchronously from it and no
second fetch is issued — refuting that every literal string addresses a
slot distinct from the absent-ref slot. -/
theorem spec_c7_counterexample :
    cacheKey "u" "r" (refOrNull (some "null")) = cacheKey "u" "r" (refOrNull none) ∧
    (run parse0 dd0 initState c7acts).fetchCount = 1 ∧
    (run parse0 dd0 initState c7acts).delivered =
      [(0, CbArg.okv sampleData false), (1, CbArg.okv sampleData true)] := by decide

/-- C7 amended: the absent ref is coerced to null and stored under the JS
property key "null", so absent, the empty string and the literal string
"null" all address one slot; every other literal string addresses a slot
distinct from the absent-ref slot, and two absent-ref calls share a slot. -/
theorem spec_c7_amended (user repo : String) (r : String) (hne : r ≠ "") (hnn : r ≠ "null") :
    cacheKey user repo (refOrNull (some r)) ≠ cacheKey user repo (refOrNull none) ∧
    cacheKey user repo (refOrNull none) = cacheKey user repo (refOrNull none) ∧
    cacheKey user repo (refOrNull (some "")) = cacheKey user repo (refOrNull none) ∧
    cacheKey user repo (refOrNull (some "null")) = cacheKey user repo (refOrNull none) := by
  refine ⟨?_, rfl, rfl, rfl⟩
  simp [cacheKey, refOrNull, refPropKey, hne, hnn]

/-- Witness for C7 amended at the literal ref string "x". -/
theorem spec_c7_amended_witness :
    cacheKey "u" "r" (refOrNull (some "x")) ≠ cacheKey "u" "r" (refOrNull none) ∧
    cacheKey "u" "r" (refOrNull none) = cacheKey "u" "r" (refOrNull none) ∧
    cacheKey "u" "r" (refOrNull (some "")) = cacheKey "u" "r" (refOrNull none) ∧
    cacheKey "u" "r" (refOrNull (some "null")) = cacheKey "u" "r" (refOrNull none) :=
  spec_c7_amended "u" "r" "x" (by decide) (by decide)

/-- C8 counterexample: with a previous manifest present, a dependency
section missing from either manifest is handed to the differ as the absent
value, not as an empty mapping — here the previous manifest lacks
devDependencies and the new manifest lacks them too, and the differ
receives the absent value on both sides. -/
theorem spec_c8_counterexample :
    ¬ (∀ p ∈ differArgs (some { data := sampleData, priv := false, expires := 10 }) sampleData,
        p.1.isSome = true ∧ p.2.isSome = true) := by decide

/-- C8 amended: when a previous manifest exists the differ receives exactly
the raw section fields of the old and new manifests, with no defaulting to
empty mappings (the empty-object fallback of the source ternaries applies
only when the previous manifest is absent, in which case the differ is
never invoked and a single retrieve event is raised instead). -/
theorem spec_c8_amended (dd : DiffFun) (om : Manifest) (d : ManifestData)
    (user repo : String) (priv : Bool) :
    differArgs (some om) d =
      [(om.data.dependencies, d.dependencies),
       (om.data.devDependencies, d.devDependencies),
       (om.data.peerDependencies, d.peerDependencies),
       (om.data.optionalDependencies, d.optionalDependencies)] ∧
    notifyEvents dd (some om) d user repo priv =
      (if (dd om.data.dependencies d.dependencies).isEmpty then []
       else [Event.dependenciesChange (dd om.data.dependencies d.dependencies) d user repo priv])
      ++ (if (dd om.data.devDependencies d.devDependencies).isEmpty then []
       else [Event.devDependenciesChange (dd om.data.devDependencies d.devDependencies) d user repo priv])
      ++ (if (dd om.data.peerDependencies d.peerDependencies).isEmpty then []
       else [Event.peerDependenciesChange (dd om.data.peerDependencies d.peerDependencies) d user repo priv])
      ++ (if (dd om.data.optionalDependencies d.optionalDependencies).isEmpty then []
       else [Event.optionalDependenciesChange (dd om.data.optionalDependencies d.optionalDependencies) d user repo priv]) ∧
    notifyEvents dd none d user repo priv = [Event.retrieve d user repo priv] :=
  ⟨rfl, rfl, rfl⟩

/-- Characterization of the events raised when a previous manifest exists:
no retrieve event, and each section's change event is present exactly when
that section's diff list is non-empty, carrying that diff list and the new
manifest data, owner, repo and visibility flag. -/
theorem notifyEvents_some_char (dd : DiffFun) (om : Manifest) (data : ManifestData)
    (user repo : String) (priv : Bool) :
    (∀ d u r p, Event.retrieve d u r p ∉ notifyEvents dd (some om) data user repo priv) ∧
    (∀ diffs d u r p,
      Event.dependenciesChange diffs d u r p ∈ notifyEvents dd (some om) data user repo priv ↔
      (diffs = dd om.data.dependencies data.dependencies ∧ diffs ≠ [] ∧
       d = data ∧ u = user ∧ r = repo ∧ p = priv)) ∧
    (∀ diffs d u r p,
      Event.devDependenciesChange diffs d u r p ∈ notifyEvents dd (some om) data user repo priv ↔
      (diffs = dd om.data.devDependencies data.devDependencies ∧ diffs ≠ [] ∧
       d = data ∧ u = user ∧ r = repo ∧ p = priv)) ∧
    (∀ diffs d u r p,
      Event.peerDependenciesChange diffs d u r p ∈ notifyEvents dd (some om) data user repo priv ↔
      (diffs = dd om.data.peerDependencies data.peerDependencies ∧ diffs ≠ [] ∧
       d = data ∧ u = user ∧ r = repo ∧ p = priv)) ∧
    (∀ diffs d u r p,
      Event.optionalDependenciesChange diffs d u r p ∈ notifyEvents dd (some om) data user repo priv ↔
      (diffs = dd om.data.optionalDependencies data.optionalDependencies ∧ diffs ≠ [] ∧
       d = data ∧ u = user ∧ r = repo ∧ p = priv)) := by
  refine ⟨?_, ?_, ?_, ?_, ?_⟩
  · intro d u r p
    simp only [notifyEvents, oldSection, List.mem_append]
    split_ifs <;> simp
  all_goals
    intro diffs d u r p
    simp only [notifyEvents, oldSection, List.mem_append]
    split_ifs <;> simp_all [List.isEmpty_iff]

/-- C4: a successful fetch on the store path writes the new entry; when the
call-time snapshot was empty exactly one retrieve event and no change
events are appended, and when a previous manifest existed no retrieve event
is appended and each section's change event is emitted if and only if the
differ applied to the old and new section returns a non-empty list,
carrying that list, the new manifest data, owner, repo and visibility
flag. -/
theorem spec_c4_event_emission (parse : String → Option ManifestData) (dd : DiffFun)
    (s : SysState) (key : String) (fl : InFlight) (data0 : ManifestData) (body : String)
    (now : Nat)
    (hfind : s.inflight.find? (fun f => f.key == key) = some fl)
    (hstale : ∀ m, fl.snapshot = some m → m.expires ≤ now)
    (hparse : parse body = some data0) :
    (fetchComplete parse dd s key (.ok body) now).events =
      s.events ++ notifyEvents dd fl.snapshot { data0 with ref := fl.ref } fl.user fl.repo false ∧
    (fetchComplete parse dd s key (.ok body) now).cache =
      cacheStore s.cache fl.user fl.repo fl.ref
        { data := { data0 with ref := fl.ref }, priv := false, expires := now + s.ttl } ∧
    (fl.snapshot = none →
      notifyEvents dd fl.snapshot { data0 with ref := fl.ref } fl.user fl.repo false =
        [Event.retrieve { data0 with ref := fl.ref } fl.user fl.repo false]) ∧
    (∀ om, fl.snapshot = some om →
      (∀ d u r p, Event.retrieve d u r p ∉
          notifyEvents dd fl.snapshot { data0 with ref := fl.ref } fl.user fl.repo false) ∧
      (∀ diffs d u r p,
        Event.dependenciesChange diffs d u r p ∈
            notifyEvents dd fl.snapshot { data0 with ref := fl.ref } fl.user fl.repo false ↔
        (diffs = dd om.data.dependencies ({ data0 with ref := fl.ref } : ManifestData).dependencies ∧
         diffs ≠ [] ∧ d = { data0 with ref := fl.ref } ∧ u = fl.user ∧ r = fl.repo ∧ p = false)) ∧
      (∀ diffs d u r p,
        Event.devDependenciesChange diffs d u r p ∈
            notifyEvents dd fl.snapshot { data0 with ref := fl.ref } fl.user fl.repo false ↔
        (diffs = dd om.data.devDependencies ({ data0 with ref := fl.ref } : ManifestData).devDependencies ∧
         diffs ≠ [] ∧ d = { data0 with ref := fl.ref } ∧ u = fl.user ∧ r = fl.repo ∧ p = false)) ∧
      (∀ diffs d u r p,
        Event.peerDependenciesChange diffs d u r p ∈
            notifyEvents dd fl.snapshot { data0 with ref := fl.ref } fl.user fl.repo false ↔
        (diffs = dd om.data.peerDependencies ({ data0 with ref := fl.ref } : ManifestData).peerDependencies ∧
         diffs ≠ [] ∧ d = { data0 with ref := fl.ref } ∧ u = fl.user ∧ r = fl.repo ∧ p = false)) ∧
      (∀ diffs d u r p,
        Event.optionalDependenciesChange diffs d u r p ∈
            notifyEvents dd fl.snapshot { data0 with ref := fl.ref } fl.user fl.repo false ↔
        (diffs = dd om.data.optionalDependencies ({ data0 with ref := fl.ref } : ManifestData).optionalDependencies ∧
         diffs ≠ [] ∧ d = { data0 with ref := fl.ref } ∧ u = fl.user ∧ r = fl.repo ∧ p = false))) := by
  have hbody : ∀ t : SysState, parseAndGo parse dd t key fl body now =
      onGetRepo dd t key fl data0 now (.ok false) := by
    intro t
    simp [parseAndGo, hparse]
  refine ⟨?_, ?_, ?_, ?_⟩
  · cases h : fl.snapshot with
    | none => simp [fetchComplete, hfind, h, hbody, onGetRepo, deliverAll]
    | some m =>
      have hm : ¬ now < m.expires := Nat.not_lt.2 (hstale m h)
      simp [fetchComplete, hfind, h, hm, hbody, onGetRepo, deliverAll]
  · cases h : fl.snapshot with
    | none => simp [fetchComplete, hfind, h, hbody, onGetRepo, deliverAll]
    | some m =>
      have hm : ¬ now < m.expires := Nat.not_lt.2 (hstale m h)
      simp [fetchComplete, hfind, h, hm, hbody, onGetRepo, deliverAll]
  · intro h
    rw [h]
    rfl
  · intro om h
    rw [h]
    exact notifyEvents_some_char dd om { data0 with ref := fl.ref } fl.user fl.repo false

/-- Witness for C4 on a cold-cache leader whose snapshot was empty. -/
theorem spec_c4_witness :
    (fetchComplete parse0 dd0 sFan "k" (.ok "BODY") 5).events =
      sFan.events ++ notifyEvents dd0 flFan.snapshot { sampleData with ref := flFan.ref }
        flFan.user flFan.repo false ∧
    (fetchComplete parse0 dd0 sFan "k" (.ok "BODY") 5).cache =
      cacheStore sFan.cache flFan.user flFan.repo flFan.ref
        { data := { sampleData with ref := flFan.ref }, priv := false, expires := 5 + sFan.ttl } ∧
    (flFan.snapshot = none →
      notifyEvents dd0 flFan.snapshot { sampleData with ref := flFan.ref } flFan.user flFan.repo false =
        [Event.retrieve { sampleData with ref := flFan.ref } flFan.user flFan.repo false]) ∧
    (∀ om, flFan.snapshot = some om →
      (∀ d u r p, Event.retrieve d u r p ∉
          notifyEvents dd0 flFan.snapshot { sampleData with ref := flFan.ref } flFan.user flFan.repo false) ∧
      (∀ diffs d u r p,
        Event.dependenciesChange diffs d u r p ∈
            notifyEvents dd0 flFan.snapshot { sampleData with ref := flFan.ref } flFan.user flFan.repo false ↔
        (diffs = dd0 om.data.dependencies ({ sampleData with ref := flFan.ref } : ManifestData).dependencies ∧
         diffs ≠ [] ∧ d = { sampleData with ref := flFan.ref } ∧ u = flFan.user ∧ r = flFan.repo ∧ p = false)) ∧
      (∀ diffs d u r p,
        Event.devDependenciesChange diffs d u r p ∈
            notifyEvents dd0 flFan.snapshot { sampleData with ref := flFan.ref } flFan.user flFan.repo false ↔
        (diffs = dd0 om.data.devDependencies ({ sampleData with ref := flFan.ref } : ManifestData).devDependencies ∧
         diffs ≠ [] ∧ d = { sampleData with ref := flFan.ref } ∧ u = flFan.user ∧ r = flFan.repo ∧ p = false)) ∧
      (∀ diffs d u r p,
        Event.peerDependenciesChange diffs d u r p ∈
            notifyEvents dd0 flFan.snapshot { sampleData with ref := flFan.ref } flFan.user flFan.repo false ↔
        (diffs = dd0 om.data.peerDependencies ({ sampleData with ref := flFan.ref } : ManifestData).peerDependencies ∧
         diffs ≠ [] ∧ d = { sampleData with ref := flFan.ref } ∧ u = flFan.user ∧ r = flFan.repo ∧ p = false)) ∧
      (∀ diffs d u r p,
        Event.optionalDependenciesChange diffs d u r p ∈
            notifyEvents dd0 flFan.snapshot { sampleData with ref := flFan.ref } flFan.user flFan.repo false ↔
        (diffs = dd0 om.data.optionalDependencies ({ sampleData with ref := flFan.ref } : ManifestData).optionalDependencies ∧
         diffs ≠ [] ∧ d = { sampleData with ref := flFan.ref } ∧ u = flFan.user ∧ r = flFan.repo ∧ p = false))) :=
  spec_c4_event_emission parse0 dd0 sFan "k" flFan sampleData "BODY" 5 (by decide)
    (by intro m hm; cases hm) (by decide)

/-- C5: a fetch that fails in transport, or whose body does not parse,
delivers the error once to every callback enqueued under the coalescing
key (the parse error carrying the offending body), retires the fetch and
the group, and leaves the cache and the event log unchanged. -/
theorem spec_c5_failure_paths :
    (∀ (parse : String → Option ManifestData) (dd : DiffFun) (s : SysState) (key : String)
        (fl : InFlight) (e : String) (now : Nat),
      s.inflight.find? (fun f => f.key == key) = some fl →
      fetchComplete parse dd s key (.err e) now =
        { s with
          inflight := s.inflight.eraseP (fun f => f.key == key),
          delivered := s.delivered ++
            (groupCallbacks s.groups key).map (fun c => (c, CbArg.fetchErr e)),
          groups := s.groups.eraseP (fun p => p.1 == key) }) ∧
    (∀ (parse : String → Option ManifestData) (dd : DiffFun) (s : SysState) (key : String)
        (fl : InFlight) (body : String) (now : Nat),
      s.inflight.find? (fun f => f.key == key) = some fl →
      (∀ m, fl.snapshot = some m → m.expires ≤ now) →
      parse body = none →
      fetchComplete parse dd s key (.ok body) now =
        { s with
          inflight := s.inflight.eraseP (fun f => f.key == key),
          delivered := s.delivered ++
            (groupCallbacks s.groups key).map (fun c => (c, CbArg.parseErr body)),
          groups := s.groups.eraseP (fun p => p.1 == key) }) := by
  constructor
  · intro parse dd s key fl e now hfind
    simp [fetchComplete, hfind, deliverAll]
  · intro parse dd s key fl body now hfind hstale hparse
    cases h : fl.snapshot with
    | none => simp [fetchComplete, hfind, h, parseAndGo, hparse, deliverAll]
    | some m =>
      have hm : ¬ now < m.expires := Nat.not_lt.2 (hstale m h)
      simp [fetchComplete, hfind, h, hm, parseAndGo, hparse, deliverAll]

/-- Witness for C5: the transport-error path and the unparsable-body path
at a concrete in-flight state. -/
theorem spec_c5_witness :
    fetchComplete parse0 dd0 sFan "k" (.err "boom") 5 =
      { sFan with
        inflight := sFan.inflight.eraseP (fun f => f.key == "k"),
        delivered := sFan.delivered ++
          (groupCallbacks sFan.groups "k").map (fun c => (c, CbArg.fetchErr "boom")),
        groups := sFan.groups.eraseP (fun p => p.1 == "k") } ∧
    fetchComplete parse0 dd0 sFan "k" (.ok "BAD") 5 =
      { sFan with
        inflight := sFan.inflight.eraseP (fun f => f.key == "k"),
        delivered := sFan.delivered ++
          (groupCallbacks sFan.groups "k").map (fun c => (c, CbArg.parseErr "BAD")),
        groups := sFan.groups.eraseP (fun p => p.1 == "k") } :=
  ⟨spec_c5_failure_paths.1 parse0 dd0 sFan "k" flFan "boom" 5 (by decide),
   spec_c5_failure_paths.2 parse0 dd0 sFan "k" flFan "BAD" 5 (by decide)
     (by intro m hm; cases hm) (by decide)⟩

/-- C6: when the leader's fetch succeeds while the call-time snapshot is
still unexpired, every waiter receives a deep copy of that snapshot's data
and the fetched body is discarded — the fetch and the group are retired but
the cache and the event log are untouched; moreover such a snapshot must be
private whenever the leader's call had taken the fetch path at an earlier
clock value. -/
theorem spec_c6_private_race (parse : String → Option ManifestData) (dd : DiffFun)
    (s : SysState) (key : String) (fl : InFlight) (m : Manifest) (body : String)
    (now callNow : Nat)
    (hfind : s.inflight.find? (fun f => f.key == key) = some fl)
    (hsnap : fl.snapshot = some m)
    (hfresh : now < m.expires) :
    fetchComplete parse dd s key (.ok body) now =
      { s with
        inflight := s.inflight.eraseP (fun f => f.key == key),
        delivered := s.delivered ++
          (groupCallbacks s.groups key).map (fun c => (c, CbArg.okv m.data true)),
        groups := s.groups.eraseP (fun p => p.1 == key) } ∧
    (callNow ≤ now → cacheHitGuardM m callNow = false → m.priv = true) := by
  constructor
  · simp [fetchComplete, hfind, hsnap, hfresh, deliverAll]
  · intro hle hguard
    cases hp : m.priv with
    | true => rfl
    | false =>
      exfalso
      rw [cacheHitGuardM, hp] at hguard
      simp at hguard
      omega

/-- Witness for C6 at a concrete fresh private snapshot. -/
theorem spec_c6_witness :
    fetchComplete parse0 dd0 sRace "k" (.ok "BODY") 5 =
      { sRace with
        inflight := sRace.inflight.eraseP (fun f => f.key == "k"),
        delivered := sRace.delivered ++
          (groupCallbacks sRace.groups "k").map (fun c => (c, CbArg.okv mPriv.data true)),
        groups := sRace.groups.eraseP (fun p => p.1 == "k") } ∧
    (0 ≤ 5 → cacheHitGuardM mPriv 0 = false → mPriv.priv = true) :=
  spec_c6_private_race parse0 dd0 sRace "k" flRace mPriv "BODY" 5 0 (by decide) (by decide)
    (by decide)

/-- Pushing onto a key makes its queue grow by that callback. -/
theorem lookup_groupPush_self (gs : Groups) (k : String) (c : Nat) :
    (groupPush gs k c).lookup k = some ((gs.lookup k).getD [] ++ [c]) := by
  induction gs with
  | nil => simp [groupPush]
  | cons p rest ih =>
    obtain ⟨k', cs⟩ := p
    by_cases h : k' = k
    · subst h
      simp [groupPush]
    · have hb : (k' == k) = false := by simp [h]
      have hb' : (k == k') = false := by simp [Ne.symm h]
      simp [groupPush, hb, List.lookup_cons, hb', ih]

/-- Pushing onto one key leaves every other key's queue unchanged. -/
theorem lookup_groupPush_ne (gs : Groups) (k k' : String) (c : Nat) (h : k' ≠ k) :
    (groupPush gs k c).lookup k' = gs.lookup k' := by
  induction gs with
  | nil =>
    have hb : (k' == k) = false := by simp [h]
    simp [groupPush, List.lookup_cons, hb]
  | cons p rest ih =>
    obtain ⟨k₀, cs⟩ := p
    by_cases h0 : k₀ = k
    · subst h0
      have hb : (k' == k₀) = false := by simp [h]
      simp [groupPush, List.lookup_cons, hb]
    · have hb0 : (k₀ == k) = false := by simp [h0]
      by_cases h1 : k' = k₀
      · subst h1
        simp [groupPush, hb0]
      · have hb1 : (k' == k₀) = false := by simp [h1]
        simp [groupPush, hb0, List.lookup_cons, hb1, ih]

/-- A key just pushed onto has a live group. -/
theorem groupExists_groupPush_self (gs : Groups) (k : String) (c : Nat) :
    groupExists (groupPush gs k c) k = true := by
  simp [groupExists, lookup_groupPush_self]

/-- Pushing preserves the existence of every live group. -/
theorem groupExists_groupPush (gs : Groups) (k k' : String) (c : Nat)
    (h : groupExists gs k' = true) :
    groupExists (groupPush gs k c) k' = true := by
  by_cases he : k' = k
  · subst he
    exact groupExists_groupPush_self gs k' c
  · rw [groupExists, lookup_groupPush_ne gs k k' c he]
    exact h

/-- Pushing onto an absent key appends a fresh singleton group. -/
theorem groupPush_absent (gs : Groups) (k : String) (c : Nat) (h : gs.lookup k = none) :
    groupPush gs k c = gs ++ [(k, [c])] := by
  induction gs with
  | nil => rfl
  | cons p rest ih =>
    obtain ⟨k₀, cs⟩ := p
    cases hb : (k == k₀) with
    | true => simp [List.lookup_cons, hb] at h
    | false =>
      have hb' : (k₀ == k) = false := by
        simp only [beq_eq_false_iff_ne] at hb ⊢
        exact Ne.symm hb
      have h' : rest.lookup k = none := by simpa [List.lookup_cons, hb] using h
      simp [groupPush, hb', ih h']

/-- Pushing a queue head then the rest is pushing the whole queue. -/
theorem pushAll_cons (gs : Groups) (k : String) (c : Nat) (cs : List Nat) :
    pushAll gs k (c :: cs) = pushAll (groupPush gs k c) k cs := rfl

/-- Pushing onto the trailing group of an otherwise key-free prefix only
extends that group. -/
theorem groupPush_append_absent (gs : Groups) (k : String) (l : List Nat) (c : Nat)
    (h : gs.lookup k = none) :
    groupPush (gs ++ [(k, l)]) k c = gs ++ [(k, l ++ [c])] := by
  induction gs with
  | nil => simp [groupPush]
  | cons p rest ih =>
    obtain ⟨k₀, cs⟩ := p
    cases hb : (k == k₀) with
    | true => simp [List.lookup_cons, hb] at h
    | false =>
      have hb' : (k₀ == k) = false := by
        simp only [beq_eq_false_iff_ne] at hb ⊢
        exact Ne.symm hb
      have h' : rest.lookup k = none := by simpa [List.lookup_cons, hb] using h
      simp [groupPush, hb', ih h']

/-- Pushing a whole queue onto the trailing group of an otherwise key-free
prefix only extends that group. -/
theorem pushAll_append_absent (k : String) (cs : List Nat) :
    ∀ (gs : Groups) (l : List Nat), gs.lookup k = none →
      pushAll (gs ++ [(k, l)]) k cs = gs ++ [(k, l ++ cs)] := by
  induction cs with
  | nil =>
    intro gs l _
    simp [pushAll]
  | cons c cs ih =>
    intro gs l h
    rw [pushAll_cons, groupPush_append_absent gs k l c h, ih gs (l ++ [c]) h]
    simp

/-- Looking up the trailing group of an otherwise key-free prefix. -/
theorem lookup_append_absent (gs : Groups) (k : String) (l : List Nat)
    (h : gs.lookup k = none) :
    (gs ++ [(k, l)]).lookup k = some l := by
  rw [List.lookup_append, h]
  simp

/-- Removing the trailing group of an otherwise key-free prefix restores
the prefix. -/
theorem eraseP_append_absent (gs : Groups) (k : String) (l : List Nat)
    (h : gs.lookup k = none) :
    (gs ++ [(k, l)]).eraseP (fun p => p.1 == k) = gs := by
  rw [List.eraseP_append_right]
  · simp
  · intro b hb
    have hne := List.lookup_eq_none_iff.1 h b hb
    simp only [bne_iff_ne, ne_eq] at hne
    simp only [beq_iff_eq]
    exact fun hh => hne hh.symm

/-- Removing one key's group leaves every other key's queue unchanged. -/
theorem lookup_eraseP_ne (gs : Groups) (k k' : String) (h : k' ≠ k) :
    ((gs.eraseP (fun p => p.1 == k)).lookup k') = gs.lookup k' := by
  induction gs with
  | nil => rfl
  | cons p rest ih =>
    obtain ⟨k₀, cs⟩ := p
    by_cases h0 : k₀ = k
    · subst h0
      rw [List.eraseP_cons_of_pos (by simp)]
      have hb : (k' == k₀) = false := by simp [h]
      simp [List.lookup_cons, hb]
    · rw [List.eraseP_cons_of_neg (by simp [h0])]
      by_cases h1 : k' = k₀
      · subst h1
        simp
      · have hb : (k' == k₀) = false := by simp [h1]
        simp [List.lookup_cons, hb, ih]

/-- Finding the trailing fetch when the prefix has no fetch for the key. -/
theorem find?_append_key (l1 : List InFlight) (fl : InFlight) (key : String)
    (h : ∀ f ∈ l1, (f.key == key) = false) (hk : fl.key = key) :
    (l1 ++ [fl]).find? (fun f => f.key == key) = some fl := by
  rw [List.find?_append, List.find?_eq_none.2 (by intro x hx; simp [h x hx])]
  simp [hk]

/-- Erasing the trailing fetch when the prefix has no fetch for the key. -/
theorem eraseP_append_key (l1 : List InFlight) (fl : InFlight) (key : String)
    (h : ∀ f ∈ l1, (f.key == key) = false) (hk : fl.key = key) :
    (l1 ++ [fl]).eraseP (fun f => f.key == key) = l1 := by
  rw [List.eraseP_append_right _ (by intro b hb; simp [h b hb])]
  simp [hk]

/-- With pairwise-distinct fetch keys, whatever survives erasing the
completing key is an old fetch for a different key. -/
theorem mem_eraseP_key (l : List InFlight) (key : String) (f : InFlight)
    (hn : (l.map (fun g => g.key)).Nodup)
    (hf : f ∈ l.eraseP (fun g => g.key == key)) :
    f ∈ l ∧ (f.key == key) = false := by
  induction l with
  | nil => cases hf
  | cons x xs ih =>
    simp only [List.map_cons, List.nodup_cons] at hn
    obtain ⟨hnx, hnxs⟩ := hn
    cases hx : (x.key == key) with
    | true =>
      have hf' : f ∈ xs := by simpa [List.eraseP_cons, hx] using hf
      refine ⟨List.mem_cons_of_mem x hf', ?_⟩
      have hxk : x.key = key := by simpa using hx
      cases hfb : (f.key == key) with
      | false => rfl
      | true =>
        have hfk : f.key = key := by simpa using hfb
        exact absurd (by
          have hm : f.key ∈ xs.map (fun g => g.key) := List.mem_map_of_mem _ hf'
          rwa [hfk, ← hxk] at hm) hnx
    | false =>
      have hf' : f ∈ x :: xs.eraseP (fun g => g.key == key) := by
        simpa [List.eraseP_cons, hx] using hf
      rcases List.mem_cons.1 hf' with rfl | hf''
      · exact ⟨List.mem_cons_self _ _, hx⟩
      · obtain ⟨hmem, hne⟩ := ih hnxs hf''
        exact ⟨List.mem_cons_of_mem x hmem, hne⟩

/-- Shape of the state after the parse stage of a completed fetch: the
outstanding set is untouched, the group is retired, and one uniform result
is fanned out to the whole group. -/
theorem parseAndGo_shape (parse : String → Option ManifestData) (dd : DiffFun)
    (s1 : SysState) (key : String) (fl : InFlight) (body : String) (now : Nat) :
    (parseAndGo parse dd s1 key fl body now).inflight = s1.inflight ∧
    (parseAndGo parse dd s1 key fl body now).groups =
      s1.groups.eraseP (fun p => p.1 == key) ∧
    ∃ arg : CbArg, (parseAndGo parse dd s1 key fl body now).delivered =
      s1.delivered ++ (groupCallbacks s1.groups key).map (fun c => (c, arg)) := by
  unfold parseAndGo
  cases parse body with
  | none => exact ⟨rfl, rfl, .parseErr body, rfl⟩
  | some data0 => exact ⟨rfl, rfl, .okv { data0 with ref := fl.ref } false, rfl⟩

/-- Shape of the state after any completed fetch: the completing key's
fetch is erased, its group is retired, and one uniform result is fanned out
to the whole group. -/
theorem fetchComplete_shape (parse : String → Option ManifestData) (dd : DiffFun)
    (s : SysState) (key : String) (fl : InFlight) (result : FetchResult) (now : Nat)
    (hfind : s.inflight.find? (fun f => f.key == key) = some fl) :
    (fetchComplete parse dd s key result now).inflight =
      s.inflight.eraseP (fun f => f.key == key) ∧
    (fetchComplete parse dd s key result now).groups =
      s.groups.eraseP (fun p => p.1 == key) ∧
    ∃ arg : CbArg, (fetchComplete parse dd s key result now).delivered =
      s.delivered ++ (groupCallbacks s.groups key).map (fun c => (c, arg)) := by
  unfold fetchComplete
  rw [hfind]
  cases result with
  | err e => exact ⟨rfl, rfl, .fetchErr e, rfl⟩
  | ok body =>
    dsimp only
    cases fl.snapshot with
    | some m =>
      dsimp only
      by_cases hfr : decide (now < m.expires) = true
      · rw [if_pos hfr]
        exact ⟨rfl, rfl, .okv m.data true, rfl⟩
      · rw [if_neg hfr]
        exact parseAndGo_shape parse dd _ key fl body now
    | none => exact parseAndGo_shape parse dd _ key fl body now

/-- Enqueuing or becoming leader preserves the coalescer invariant. -/
theorem goodState_fetchOrCoalesce (s : SysState) (cid : Nat) (user repo : String)
    (ref authToken : Option String) (snapshot : Option Manifest) (h : GoodState s) :
    GoodState (fetchOrCoalesce s cid user repo ref authToken snapshot) := by
  obtain ⟨hnd, hin⟩ := h
  unfold fetchOrCoalesce
  dsimp only
  by_cases hg : groupExists s.groups (batchKey user repo authToken) = true
  · rw [if_pos hg]
    refine ⟨hnd, ?_⟩
    intro f hf
    exact groupExists_groupPush _ _ _ _ (hin f hf)
  · rw [if_neg hg]
    constructor
    · rw [List.map_append]
      rw [List.nodup_append]
      refine ⟨hnd, by simp, ?_⟩
      intro a ha hb
      simp only [List.map_cons, List.map_nil, List.mem_singleton] at hb
      subst hb
      rcases List.mem_map.1 ha with ⟨f, hf, hfk⟩
      have hx := hin f hf
      rw [hfk] at hx
      exact hg hx
    · intro f hf
      rcases List.mem_append.1 hf with hf | hf
      · exact groupExists_groupPush _ _ _ _ (hin f hf)
      · rw [List.mem_singleton] at hf
        subst hf
        exact groupExists_groupPush_self ..

/-- Each step of the event loop preserves the coalescer invariant. -/
theorem goodState_step (parse : String → Option ManifestData) (dd : DiffFun)
    (s : SysState) (a : Action) (h : GoodState s) :
    GoodState (step parse dd s a) := by
  obtain ⟨hnd, hin⟩ := h
  cases a with
  | call cid user repo ref0 authToken now =>
    show GoodState (getManifestCall s cid user repo ref0 authToken now)
    unfold getManifestCall
    dsimp only
    cases cacheLookup s.cache user repo (refOrNull ref0) with
    | none => exact goodState_fetchOrCoalesce s cid user repo _ authToken _ ⟨hnd, hin⟩
    | some m =>
      dsimp only
      by_cases hg : cacheHitGuardM m now = true
      · rw [if_pos hg]
        exact ⟨hnd, hin⟩
      · rw [if_neg hg]
        exact goodState_fetchOrCoalesce s cid user repo _ authToken _ ⟨hnd, hin⟩
  | complete key result now =>
    show GoodState (fetchComplete parse dd s key result now)
    cases hf : s.inflight.find? (fun f => f.key == key) with
    | none =>
      unfold fetchComplete
      rw [hf]
      exact ⟨hnd, hin⟩
    | some fl =>
      obtain ⟨hi, hgrp, -⟩ := fetchComplete_shape parse dd s key fl result now hf
      constructor
      · rw [hi]
        exact List.Nodup.sublist (List.Sublist.map _ (List.eraseP_sublist _)) hnd
      · intro f hfmem
        rw [hi] at hfmem
        obtain ⟨hmem, hne⟩ := mem_eraseP_key s.inflight key f hnd hfmem
        rw [hgrp]
        have hne' : f.key ≠ key := by simpa using hne
        rw [groupExists, lookup_eraseP_ne s.groups key f.key hne']
        exact hin f hmem

/-- Running any action sequence preserves the coalescer invariant. -/
theorem goodState_run (parse : String → Option ManifestData) (dd : DiffFun) :
    ∀ (acts : List Action) (s : SysState), GoodState s → GoodState (run parse dd s acts) := by
  intro acts
  induction acts with
  | nil => intro s h; exact h
  | cons a rest ih =>
    intro s h
    exact ih (step parse dd s a) (goodState_step parse dd s a h)

/-- A call that misses the cache while its coalescing group is live only
enqueues the caller. -/
theorem run_calls_enqueue (parse : String → Option ManifestData) (dd : DiffFun)
    (user repo : String) (ref0 authToken : Option String) (now : Nat) (C : Cache)
    (hMiss : ∀ m, cacheLookup C user repo (refOrNull ref0) = some m →
      cacheHitGuardM m now = false) :
    ∀ (cids : List Nat) (t : SysState), t.cache = C →
      groupExists t.groups (batchKey user repo authToken) = true →
      run parse dd t (callsOf cids user repo ref0 authToken now) =
        { t with groups := pushAll t.groups (batchKey user repo authToken) cids } := by
  intro cids
  induction cids with
  | nil =>
    intro t _ _
    show t = _
    simp [pushAll]
  | cons c cs ih =>
    intro t hc hg
    have hstep : step parse dd t (Action.call c user repo ref0 authToken now) =
        { t with groups := groupPush t.groups (batchKey user repo authToken) c } := by
      show getManifestCall t c user repo ref0 authToken now = _
      unfold getManifestCall
      dsimp only
      cases hm : cacheLookup t.cache user repo (refOrNull ref0) with
      | none =>
        unfold fetchOrCoalesce
        dsimp only
        rw [if_pos hg]
      | some m =>
        dsimp only
        have hmiss : cacheHitGuardM m now = false := hMiss m (hc ▸ hm)
        rw [if_neg (by simp [hmiss])]
        unfold fetchOrCoalesce
        dsimp only
        rw [if_pos hg]
    have hrun : run parse dd t (callsOf (c :: cs) user repo ref0 authToken now) =
        run parse dd (step parse dd t (Action.call c user repo ref0 authToken now))
          (callsOf cs user repo ref0 authToken now) := rfl
    rw [hrun, hstep,
      ih { t with groups := groupPush t.groups (batchKey user repo authToken) c } hc
        (groupExists_groupPush _ _ _ _ hg |>.symm ▸ groupExists_groupPush_self _ _ _),
      pushAll_cons]

/-- C2 (spec-modelled coalescer): runs preserve the at-most-one-fetch-per-
key invariant, and for N concurrent cache-missing calls sharing a fresh
coalescing key the first call alone issues the one upstream fetch, the
others only enqueue, and the completion of that fetch delivers one uniform
outcome to each of the N enqueued callbacks, once each, retiring the group
and the fetch. -/
theorem spec_c2_coalescing (parse : String → Option ManifestData) (dd : DiffFun)
    (acts : List Action) (t s : SysState) (user repo : String)
    (ref0 authToken : Option String) (now now' : Nat) (cids : List Nat)
    (result : FetchResult)
    (hGoodT : GoodState t)
    (hGoodS : GoodState s)
    (hMiss : ∀ m, cacheLookup s.cache user repo (refOrNull ref0) = some m →
      cacheHitGuardM m now = false)
    (hNew : groupExists s.groups (batchKey user repo authToken) = false)
    (hNE : cids ≠ []) :
    GoodState (run parse dd t acts) ∧
    (run parse dd s (callsOf cids user repo ref0 authToken now)).fetchCount =
      s.fetchCount + 1 ∧
    groupCallbacks (run parse dd s (callsOf cids user repo ref0 authToken now)).groups
      (batchKey user repo authToken) = cids ∧
    (run parse dd s (callsOf cids user repo ref0 authToken now)).cache = s.cache ∧
    (run parse dd s (callsOf cids user repo ref0 authToken now)).delivered = s.delivered ∧
    (∃ fl : InFlight,
      (run parse dd s (callsOf cids user repo ref0 authToken now)).inflight =
        s.inflight ++ [fl] ∧
      fl.key = batchKey user repo authToken ∧ fl.user = user ∧ fl.repo = repo) ∧
    (∃ arg : CbArg,
      (step parse dd (run parse dd s (callsOf cids user repo ref0 authToken now))
          (Action.complete (batchKey user repo authToken) result now')).delivered =
        s.delivered ++ cids.map (fun c => (c, arg))) ∧
    groupExists
      (step parse dd (run parse dd s (callsOf cids user repo ref0 authToken now))
        (Action.complete (batchKey user repo authToken) result now')).groups
      (batchKey user repo authToken) = false ∧
    (step parse dd (run parse dd s (callsOf cids user repo ref0 authToken now))
        (Action.complete (batchKey user repo authToken) result now')).inflight =
      s.inflight := by
  obtain ⟨c0, rest, rfl⟩ := List.exists_cons_of_ne_nil hNE
  have hNone : s.groups.lookup (batchKey user repo authToken) = none := by
    rw [groupExists] at hNew
    exact Option.not_isSome_iff_eq_none.1 (by simp [hNew])
  have hlead : step parse dd s (Action.call c0 user repo ref0 authToken now) =
      { s with
        groups := groupPush s.groups (batchKey user repo authToken) c0,
        inflight := s.inflight ++
          [{ key := batchKey user repo authToken, user := user, repo := repo,
             ref := refOrNull ref0,
             snapshot := cacheLookup s.cache user repo (refOrNull ref0) }],
        fetchCount := s.fetchCount + 1 } := by
    show getManifestCall s c0 user repo ref0 authToken now = _
    unfold getManifestCall
    dsimp only
    cases hm : cacheLookup s.cache user repo (refOrNull ref0) with
    | none =>
      unfold fetchOrCoalesce
      dsimp only
      rw [if_neg (by simp [hNew])]
    | some m =>
      dsimp only
      rw [if_neg (by simp [hMiss m hm])]
      unfold fetchOrCoalesce
      dsimp only
      rw [if_neg (by simp [hNew])]
  have hrun : run parse dd s (callsOf (c0 :: rest) user repo ref0 authToken now) =
      run parse dd (step parse dd s (Action.call c0 user repo ref0 authToken now))
        (callsOf rest user repo ref0 authToken now) := rfl
  have hfollow := run_calls_enqueue parse dd user repo ref0 authToken now s.cache hMiss rest
    { s with
      groups := groupPush s.groups (batchKey user repo authToken) c0,
      inflight := s.inflight ++
        [{ key := batchKey user repo authToken, user := user, repo := repo,
           ref := refOrNull ref0,
           snapshot := cacheLookup s.cache user repo (refOrNull ref0) }],
      fetchCount := s.fetchCount + 1 } rfl (groupExists_groupPush_self _ _ _)
  have hsN : run parse dd s (callsOf (c0 :: rest) user repo ref0 authToken now) =
      { s with
        groups := s.groups ++ [(batchKey user repo authToken, c0 :: rest)],
        inflight := s.inflight ++
          [{ key := batchKey user repo authToken, user := user, repo := repo,
             ref := refOrNull ref0,
             snapshot := cacheLookup s.cache user repo (refOrNull ref0) }],
        fetchCount := s.fetchCount + 1 } := by
    rw [hrun, hlead, hfollow]
    have : pushAll (groupPush s.groups (batchKey user repo authToken) c0)
        (batchKey user repo authToken) rest =
        s.groups ++ [(batchKey user repo authToken, c0 :: rest)] := by
      rw [groupPush_absent s.groups _ c0 hNone,
        pushAll_append_absent _ rest s.groups [c0] hNone]
      rfl
    rw [this]
  have hforall : ∀ f ∈ s.inflight, (f.key == batchKey user repo authToken) = false := by
    intro f hf
    cases hfb : (f.key == batchKey user repo authToken) with
    | false => rfl
    | true =>
      have hk : f.key = batchKey user repo authToken := by simpa using hfb
      have hx := hGoodS.2 f hf
      rw [hk] at hx
      rw [hx] at hNew
      cases hNew
  have hfind : (run parse dd s (callsOf (c0 :: rest) user repo ref0 authToken now)).inflight.find?
      (fun f => f.key == batchKey user repo authToken) =
      some { key := batchKey user repo authToken, user := user, repo := repo,
             ref := refOrNull ref0,
             snapshot := cacheLookup s.cache user repo (refOrNull ref0) } := by
    rw [hsN]
    exact find?_append_key s.inflight _ _ hforall rfl
  obtain ⟨hi, hgrp, arg, hdel⟩ := fetchComplete_shape parse dd
    (run parse dd s (callsOf (c0 :: rest) user repo ref0 authToken now))
    (batchKey user repo authToken) _ result now' hfind
  have hgroupsN : (run parse dd s (callsOf (c0 :: rest) user repo ref0 authToken now)).groups =
      s.groups ++ [(batchKey user repo authToken, c0 :: rest)] := by rw [hsN]
  have hcbN : groupCallbacks
      (run parse dd s (callsOf (c0 :: rest) user repo ref0 authToken now)).groups
      (batchKey user repo authToken) = c0 :: rest := by
    rw [hgroupsN, groupCallbacks, lookup_append_absent s.groups _ _ hNone]
    rfl
  refine ⟨goodState_run parse dd acts t hGoodT, ?_, hcbN, ?_, ?_, ?_, ?_, ?_, ?_⟩
  · rw [hsN]
  · rw [hsN]
  · rw [hsN]
  · exact ⟨_, by rw [hsN], rfl, rfl, rfl⟩
  · refine ⟨arg, ?_⟩
    show (fetchComplete parse dd _ _ result now').delivered = _
    rw [hdel, hcbN]
    rw [hsN]
  · show groupExists (fetchComplete parse dd _ _ result now').groups _ = false
    rw [hgrp, hgroupsN, eraseP_append_absent s.groups _ _ hNone]
    exact hNew
  · show (fetchComplete parse dd _ _ result now').inflight = s.inflight
    rw [hi, hsN]
    exact eraseP_append_key s.inflight _ _ hforall rfl

/-- Witness for C2: two concurrent cold-cache callers sharing one key. -/
theorem spec_c2_witness :
    GoodState (run parse0 dd0 initState []) ∧
    (run parse0 dd0 initState (callsOf [0, 1] "u" "r" none none 0)).fetchCount =
      initState.fetchCount + 1 ∧
    groupCallbacks (run parse0 dd0 initState (callsOf [0, 1] "u" "r" none none 0)).groups
      (batchKey "u" "r" none) = [0, 1] ∧
    (run parse0 dd0 initState (callsOf [0, 1] "u" "r" none none 0)).cache = initState.cache ∧
    (run parse0 dd0 initState (callsOf [0, 1] "u" "r" none none 0)).delivered =
      initState.delivered ∧
    (∃ fl : InFlight,
      (run parse0 dd0 initState (callsOf [0, 1] "u" "r" none none 0)).inflight =
        initState.inflight ++ [fl] ∧
      fl.key = batchKey "u" "r" none ∧ fl.user = "u" ∧ fl.repo = "r") ∧
    (∃ arg : CbArg,
      (step parse0 dd0 (run parse0 dd0 initState (callsOf [0, 1] "u" "r" none none 0))
          (Action.complete (batchKey "u" "r" none) (.ok "BODY") 5)).delivered =
        initState.delivered ++ [0, 1].map (fun c => (c, arg))) ∧
    groupExists
      (step parse0 dd0 (run parse0 dd0 initState (callsOf [0, 1] "u" "r" none none 0))
        (Action.complete (batchKey "u" "r" none) (.ok "BODY") 5)).groups
      (batchKey "u" "r" none) = false ∧
    (step parse0 dd0 (run parse0 dd0 initState (callsOf [0, 1] "u" "r" none none 0))
        (Action.complete (batchKey "u" "r" none) (.ok "BODY") 5)).inflight =
      initState.inflight :=
  spec_c2_coalescing parse0 dd0 [] initState initState "u" "r" none none 0 5 [0, 1]
    (.ok "BODY") (by decide) (by decide) (by intro m hm; cases hm) (by decide) (by decide)

/-- Invariant behind C9: all cache entries are public, all events carry a
false visibility flag, and no visibility-lookup error was ever delivered. -/
def AllPublic (s : SysState) : Prop :=
  (∀ k m, (k, m) ∈ s.cache → m.priv = false) ∧
  (∀ e ∈ s.events, eventPriv e = false) ∧
  (∀ p ∈ s.delivered, isVisibilityErr p.2 = false)

/-- Every event raised by the change notifier carries the visibility flag
it was invoked with. -/
theorem eventPriv_notifyEvents (dd : DiffFun) (old : Option Manifest) (data : ManifestData)
    (user repo : String) (priv : Bool) :
    ∀ e ∈ notifyEvents dd old data user repo priv, eventPriv e = priv := by
  cases old with
  | none =>
    intro e he
    simp only [notifyEvents, List.mem_singleton] at he
    simp [he, eventPriv]
  | some om =>
    intro e he
    have hx : ∀ (c : Bool) (x : Event), e ∈ (if c = true then ([] : List Event) else [x]) →
        e = x := by
      intro c x hmem
      cases c <;> simp_all
    simp only [notifyEvents, oldSection, List.mem_append] at he
    rcases he with ((h | h) | h) | h <;> (rw [hx _ _ h]; rfl)

/-- Fanning a result out to a group preserves the all-public invariant as
long as the result is not a visibility error. -/
theorem allPublic_deliverAll (s : SysState) (key : String) (arg : CbArg)
    (h : AllPublic s) (harg : isVisibilityErr arg = false) :
    AllPublic (deliverAll s key arg) := by
  obtain ⟨hc, he, hd⟩ := h
  refine ⟨hc, he, ?_⟩
  intro p hp
  rcases List.mem_append.1 hp with hp | hp
  · exact hd p hp
  · rcases List.mem_map.1 hp with ⟨c, _, rfl⟩
    exact harg

/-- The success continuation invoked with the constant public repo data
preserves the all-public invariant. -/
theorem allPublic_onGetRepo (dd : DiffFun) (s1 : SysState) (key : String) (fl : InFlight)
    (data0 : ManifestData) (now : Nat) (h : AllPublic s1) :
    AllPublic (onGetRepo dd s1 key fl data0 now (.ok false)) := by
  obtain ⟨hc, he, hd⟩ := h
  simp only [onGetRepo, deliverAll]
  refine ⟨?_, ?_, ?_⟩
  · intro k m hm
    simp only [cacheStore, List.mem_cons] at hm
    rcases hm with hm | hm
    · cases hm
      rfl
    · exact hc k m (List.mem_filter.1 hm).1
  · intro e hev
    rcases List.mem_append.1 hev with hev | hev
    · exact he e hev
    · exact eventPriv_notifyEvents dd fl.snapshot _ fl.user fl.repo false e hev
  · intro p hp
    rcases List.mem_append.1 hp with hp | hp
    · exact hd p hp
    · rcases List.mem_map.1 hp with ⟨c, _, rfl⟩
      rfl

/-- Enqueuing or becoming leader preserves the all-public invariant. -/
theorem allPublic_fetchOrCoalesce (s : SysState) (cid : Nat) (user repo : String)
    (ref authToken : Option String) (snapshot : Option Manifest) (h : AllPublic s) :
    AllPublic (fetchOrCoalesce s cid user repo ref authToken snapshot) := by
  obtain ⟨hc, he, hd⟩ := h
  unfold fetchOrCoalesce
  dsimp only
  split <;> exact ⟨hc, he, hd⟩

/-- Each step of the event loop preserves the all-public invariant. -/
theorem allPublic_step (parse : String → Option ManifestData) (dd : DiffFun)
    (s : SysState) (a : Action) (h : AllPublic s) :
    AllPublic (step parse dd s a) := by
  obtain ⟨hc, he, hd⟩ := h
  cases a with
  | call cid user repo ref0 authToken now =>
    show AllPublic (getManifestCall s cid user repo ref0 authToken now)
    unfold getManifestCall
    dsimp only
    cases cacheLookup s.cache user repo (refOrNull ref0) with
    | none => exact allPublic_fetchOrCoalesce s cid user repo _ authToken _ ⟨hc, he, hd⟩
    | some m =>
      dsimp only
      by_cases hg : cacheHitGuardM m now = true
      · rw [if_pos hg]
        refine ⟨hc, he, ?_⟩
        intro p hp
        rcases List.mem_append.1 hp with hp | hp
        · exact hd p hp
        · rcases List.mem_singleton.1 hp with rfl
          rfl
      · rw [if_neg hg]
        exact allPublic_fetchOrCoalesce s cid user repo _ authToken _ ⟨hc, he, hd⟩
  | complete key result now =>
    show AllPublic (fetchComplete parse dd s key result now)
    unfold fetchComplete
    cases hf : s.inflight.find? (fun f => f.key == key) with
    | none => exact ⟨hc, he, hd⟩
    | some fl =>
      have h1 : AllPublic { s with inflight := s.inflight.eraseP (fun f => f.key == key) } :=
        ⟨hc, he, hd⟩
      cases result with
      | err e => exact allPublic_deliverAll _ key (.fetchErr e) h1 rfl
      | ok body =>
        dsimp only
        have hgo : AllPublic (parseAndGo parse dd
            { s with inflight := s.inflight.eraseP (fun f => f.key == key) } key fl body now) := by
          unfold parseAndGo
          cases parse body with
          | none => exact allPublic_deliverAll _ key (.parseErr body) h1 rfl
          | some data0 => exact allPublic_onGetRepo dd _ key fl data0 now h1
        cases fl.snapshot with
        | none => exact hgo
        | some m =>
          dsimp only
          split
          · exact allPublic_deliverAll _ key (.okv m.data true) h1 rfl
          · exact hgo

/-- C9: starting from module load, every cache entry ever created by
getManifest is public, every retrieve and change event carries a false
visibility flag, and no visibility-lookup error is ever delivered — the
visibility lookup is only ever invoked with the constant success result
whose private field is false, so its error branch is unreachable. -/
theorem spec_c9_always_public (parse : String → Option ManifestData) (dd : DiffFun)
    (acts : List Action) :
    (∀ k m, (k, m) ∈ (run parse dd initState acts).cache → m.priv = false) ∧
    (∀ e ∈ (run parse dd initState acts).events, eventPriv e = false) ∧
    (∀ p ∈ (run parse dd initState acts).delivered, isVisibilityErr p.2 = false) := by
  have base : AllPublic initState := by
    refine ⟨?_, ?_, ?_⟩ <;> intros <;> simp_all [initState, AllPublic]
  have main : ∀ (acts : List Action) (s : SysState), AllPublic s →
      AllPublic (run parse dd s acts) := by
    intro acts
    induction acts with
    | nil => intro s h; exact h
    | cons a rest ih =>
      intro s h
      exact ih (step parse dd s a) (allPublic_step parse dd s a h)
  exact main acts initState base

/-- C10: distinct (owner, repo, credential) triples can produce the same
coalescing key because the key is the dash-join of the components; two such
concurrent cold-cache calls share one in-flight fetch, and the later caller
receives the data fetched for the other repository, which is cached only
under the other repository's slot. -/
theorem spec_c10_key_collision :
    batchKey "a" "b-c" (some "t") = batchKey "a-b" "c" (some "t") ∧
    batchKey "a" "b-c" none = batchKey "a-b" "c" none ∧
    (("a", "b-c") : String × String) ≠ ("a-b", "c") ∧
    (run parse0 dd0 initState c10acts).fetchCount = 1 ∧
    (run parse0 dd0 initState c10acts).delivered =
      [(0, CbArg.okv sampleData false), (1, CbArg.okv sampleData false)] ∧
    cacheLookup (run parse0 dd0 initState c10acts).cache "a-b" "c" none = none ∧
    cacheLookup (run parse0 dd0 initState c10acts).cache "a" "b-c" none =
      some { data := sampleData, priv := false, expires := 3600005 } := by decide

end DavidManifest
